import Mathlib

/-!
Verification of the `exif-chdate` program (src/main.rs) against its
natural-language specification.

Strings are modelled as `List Char`.  The pure timestamp transformer
`build_new_datetime` (src/main.rs:44-70) is embedded directly; the
metadata-read adapter `get_original_datetime` (src/main.rs:23-40) is
embedded as a function of the external process's result; the per-file
worker `process_file` (src/main.rs:96-135) together with the tokio
semaphore is embedded as a small-step transition system; the join loop
of `main` (src/main.rs:200-204) is embedded as a fold over the results
of the spawned tasks.
-/

namespace ExifChdate

/-- Embeds the pair of `parts.next()` calls on `orig.splitn(2, ' ')`
(src/main.rs:51-53): the first component is the segment before the first
occurrence of `sep`, the second is `some` of everything after that first
occurrence, or `none` when `sep` does not occur. -/
def splitFirst (sep : Char) : List Char → List Char × Option (List Char)
  | [] => ([], none)
  | c :: cs =>
      if c = sep then ([], some cs)
      else (c :: (splitFirst sep cs).1, (splitFirst sep cs).2)

/-- The character class `['+', '-']` used by the timezone scan
(src/main.rs:56). -/
def isSign (c : Char) : Bool := c = '+' || c = '-'

/-- Embeds `time_and_tz.find(['+', '-'])` followed by the two slices
`&time_and_tz[..idx]` and `&time_and_tz[idx..]` (src/main.rs:56-60):
the first component is everything strictly before the first `+` or `-`,
the second is everything from that character on (empty when no sign
occurs, in which case the first component is the whole list). -/
def splitTz : List Char → List Char × List Char
  | [] => ([], [])
  | c :: cs =>
      if isSign c then ([], c :: cs)
      else (c :: (splitTz cs).1, (splitTz cs).2)

/-- Embeds Rust's `str::split`, which always yields at least one
(possibly empty) piece; used for `date_part.split(':')`
(src/main.rs:63). -/
def rustSplit (sep : Char) : List Char → List (List Char)
  | [] => [[]]
  | c :: cs =>
      if c = sep then [] :: rustSplit sep cs
      else
        match rustSplit sep cs with
        | [] => [[c]]
        | a :: rest => (c :: a) :: rest

/-- Embeds `build_new_datetime` (src/main.rs:44-70): split on the first
space, split the remainder at the first `+`/`-`, take the date segment's
first `:`-piece as the original year, and rebuild
`"{year}:{month}:{day} {time}{tz}"`.  The `?` on
`date_part.split(':').next()` is kept as an `Option` match, exactly as
in the source. -/
def build_new_datetime (orig : List Char) (new_year : Option (List Char))
    (new_month new_day : List Char) : Option (List Char) :=
  match splitFirst ' ' orig with
  | (_, none) => none
  | (date_part, some time_and_tz) =>
      let tp := splitTz time_and_tz
      match (rustSplit ':' date_part).head? with
      | none => none
      | some orig_year =>
          let year_to_use := new_year.getD orig_year
          some (year_to_use ++ ':' :: (new_month ++ ':' :: (new_day ++ ' ' :: (tp.1 ++ tp.2))))

/-- Result of the completed `exiftool` read invocation (src/main.rs:24-32):
the exit-status success flag and the captured standard output, already
decoded as text.  The decoding in the source is `String::from_utf8_lossy`
(src/main.rs:38), which is total — invalid bytes are replaced, never
rejected — so the decoded text is modelled directly. -/
structure ProcessOutput where
  success : Bool
  stdout : List Char

/-- Embeds Rust's `str::trim` (src/main.rs:38): remove leading and
trailing whitespace. -/
def rustTrim (l : List Char) : List Char :=
  ((l.dropWhile Char.isWhitespace).reverse.dropWhile Char.isWhitespace).reverse

/-- Embeds `get_original_datetime` (src/main.rs:23-40) as a function of
the external invocation's result; `none` as input is the
`.output().await.ok()?` path where the process could not be run at all
(src/main.rs:30-32). -/
def get_original_datetime (result : Option ProcessOutput) : Option (List Char) :=
  match result with
  | none => none
  | some o =>
      if !o.success then none
      else
        let txt := rustTrim o.stdout
        if txt = [] then none else some txt

/-- Terminal result of one per-file worker, after §3 of the spec: `done`
carries which of the four outcome kinds the worker reported
(src/main.rs:107-134). -/
inductive Outcome
  | success : List Char → Outcome
  | skippedUnreadable : Outcome
  | skippedMalformed : Outcome
  | writeFailed : Outcome

/-- Control point of one worker inside `process_file` (src/main.rs:96-135):
`waiting` is before `sem.acquire()` completes (line 104); `reading`,
`transforming` and `writing` are the three stages executed while the
`_permit` binding is live; `done` is after the function returned, at
which point the permit has been dropped. -/
inductive Phase
  | waiting : Phase
  | reading : Phase
  | transforming : Phase
  | writing : Phase
  | done : Outcome → Phase

/-- A worker holds a semaphore permit exactly between its acquire point
and its release point. -/
def holdsPermit : Phase → Bool
  | Phase.reading => true
  | Phase.transforming => true
  | Phase.writing => true
  | _ => false

/-- Number of workers currently holding a permit. -/
def permitCount (ws : List Phase) : Nat := ws.countP holdsPermit

/-- Small-step semantics of a batch of workers sharing the counting
semaphore of capacity `cap` (src/main.rs:180, 104).  `acquire` fires only
while fewer than `cap` permits are held; every terminal transition —
skip on unreadable metadata (src/main.rs:109-115), skip on malformed
timestamp (src/main.rs:121-127), successful write or write failure
(src/main.rs:131-134) — moves the worker to `done`, dropping its permit,
because `_permit` is scope-bound to the whole function body. -/
inductive WStep (cap : Nat) : List Phase → List Phase → Prop
  | acquire (a b : List Phase) :
      permitCount (a ++ Phase.waiting :: b) < cap →
      WStep cap (a ++ Phase.waiting :: b) (a ++ Phase.reading :: b)
  | readOk (a b : List Phase) :
      WStep cap (a ++ Phase.reading :: b) (a ++ Phase.transforming :: b)
  | readFail (a b : List Phase) :
      WStep cap (a ++ Phase.reading :: b) (a ++ Phase.done Outcome.skippedUnreadable :: b)
  | transformOk (a b : List Phase) :
      WStep cap (a ++ Phase.transforming :: b) (a ++ Phase.writing :: b)
  | transformFail (a b : List Phase) :
      WStep cap (a ++ Phase.transforming :: b) (a ++ Phase.done Outcome.skippedMalformed :: b)
  | writeOk (a b : List Phase) (dt : List Char) :
      WStep cap (a ++ Phase.writing :: b) (a ++ Phase.done (Outcome.success dt) :: b)
  | writeFail (a b : List Phase) :
      WStep cap (a ++ Phase.writing :: b) (a ++ Phase.done Outcome.writeFailed :: b)

/-- Eventual result of awaiting one spawned task's `JoinHandle`
(src/main.rs:203): `Except.ok` carries the report line the worker printed
on completing normally; `Except.error` is the `JoinError` of a task whose
execution unit panicked. -/
abbrev JoinResult := Except (List Char) (List Char)

/-- Observable per-file reporting of the whole run (src/main.rs:185-204):
each spawned task's report line is emitted if the task ran to completion,
while the join loop `for h in handles { let _ = h.await; }` discards the
`JoinError` of a panicked task, contributing nothing for it. -/
def batch_report (handles : List JoinResult) : List (List Char) :=
  match handles with
  | [] => []
  | Except.ok line :: rest => line :: batch_report rest
  | Except.error _ :: rest => batch_report rest

/-! ### Basic facts about the splitters -/

theorem splitFirst_of_not_mem (sep : Char) (l : List Char) (h : sep ∉ l) :
    splitFirst sep l = (l, none) := by
  induction l with
  | nil => rfl
  | cons c cs ih =>
      simp only [List.mem_cons, not_or] at h
      simp [splitFirst, Ne.symm h.1, ih h.2]

theorem splitFirst_append_sep (sep : Char) (a b : List Char) (h : sep ∉ a) :
    splitFirst sep (a ++ sep :: b) = (a, some b) := by
  induction a with
  | nil => simp [splitFirst]
  | cons c cs ih =>
      simp only [List.mem_cons, not_or] at h
      simp [splitFirst, Ne.symm h.1, ih h.2]

theorem not_mem_splitFirst_fst (sep : Char) (l : List Char) :
    sep ∉ (splitFirst sep l).1 := by
  induction l with
  | nil => simp [splitFirst]
  | cons c cs ih =>
      by_cases h : c = sep
      · simp [splitFirst, h]
      · simp [splitFirst, h, Ne.symm h, ih]

theorem mem_of_mem_splitFirst_fst (sep c : Char) (l : List Char)
    (h : c ∈ (splitFirst sep l).1) : c ∈ l := by
  induction l with
  | nil => simp [splitFirst] at h
  | cons d ds ih =>
      by_cases hd : d = sep
      · simp [splitFirst, hd] at h
      · simp only [splitFirst, if_neg hd] at h
        rcases List.mem_cons.mp h with h1 | h2
        · exact h1 ▸ List.mem_cons_self _ _
        · exact List.mem_cons_of_mem _ (ih h2)

theorem splitFirst_snd_none_iff (sep : Char) (l : List Char) :
    (splitFirst sep l).2 = none ↔ sep ∉ l := by
  induction l with
  | nil => simp [splitFirst]
  | cons c cs ih =>
      by_cases h : c = sep
      · simp [splitFirst, h]
      · simp [splitFirst, h, Ne.symm h, ih]

theorem splitTz_recombine (l : List Char) : (splitTz l).1 ++ (splitTz l).2 = l := by
  induction l with
  | nil => rfl
  | cons c cs ih =>
      by_cases h : isSign c
      · simp [splitTz, h]
      · simp [splitTz, h, ih]

theorem splitTz_fst_length (l : List Char) : (splitTz l).1.length ≤ l.length := by
  conv_rhs => rw [← splitTz_recombine l]
  rw [List.length_append]
  exact Nat.le_add_right _ _

theorem rustSplit_ne_nil (sep : Char) (l : List Char) : rustSplit sep l ≠ [] := by
  induction l with
  | nil => simp [rustSplit]
  | cons c cs ih =>
      by_cases h : c = sep
      · simp [rustSplit, h]
      · cases hr : rustSplit sep cs with
        | nil => exact absurd hr ih
        | cons a rest => simp [rustSplit, h, hr]

theorem rustSplit_head (sep : Char) (l : List Char) :
    (rustSplit sep l).head? = some (splitFirst sep l).1 := by
  induction l with
  | nil => rfl
  | cons c cs ih =>
      by_cases h : c = sep
      · simp [rustSplit, splitFirst, h]
      · cases hr : rustSplit sep cs with
        | nil => exact absurd hr (rustSplit_ne_nil sep cs)
        | cons a rest =>
            rw [hr] at ih
            simp only [List.head?_cons, Option.some.injEq] at ih
            simp [rustSplit, splitFirst, h, hr, ih]

/-- Characterisation of `build_new_datetime`: it fails exactly on the
missing-space path, and on success it emits the (possibly replaced) year,
the new month and day, and — because the timezone split recombines to the
whole segment — everything after the first space of the input, verbatim. -/
theorem build_spec (orig : List Char) (ny : Option (List Char)) (nm nd : List Char) :
    build_new_datetime orig ny nm nd =
      match splitFirst ' ' orig with
      | (_, none) => none
      | (d, some t) =>
          some (ny.getD (splitFirst ':' d).1 ++ ':' :: (nm ++ ':' :: (nd ++ ' ' :: t))) := by
  cases h : splitFirst ' ' orig with
  | mk d o =>
      cases o with
      | none => simp [build_new_datetime, h]
      | some t => simp [build_new_datetime, h, rustSplit_head, splitTz_recombine]

/-! ### Character-class facts -/

theorem not_space_of_digits (l : List Char) (h : ∀ c ∈ l, c.isDigit) : ' ' ∉ l :=
  fun hm => absurd (h ' ' hm) (by decide)

theorem not_colon_of_digits (l : List Char) (h : ∀ c ∈ l, c.isDigit) : ':' ∉ l :=
  fun hm => absurd (h ':' hm) (by decide)

theorem not_mem_datelike (x : Char) (a m d : List Char) (ha : x ∉ a) (hm : x ∉ m)
    (hd : x ∉ d) (hx : x ≠ ':') : x ∉ a ++ ':' :: (m ++ ':' :: d) := by
  intro hmem
  rcases List.mem_append.mp hmem with h | h
  · exact ha h
  · rcases List.mem_cons.mp h with h | h
    · exact hx h
    · rcases List.mem_append.mp h with h | h
      · exact hm h
      · rcases List.mem_cons.mp h with h | h
        · exact hx h
        · exact hd h

/-! ### Unfolded forms of the transformer -/

theorem build_eq_some (orig : List Char) (ny : Option (List Char)) (nm nd d t : List Char)
    (hs : splitFirst ' ' orig = (d, some t)) :
    build_new_datetime orig ny nm nd
      = some (ny.getD (splitFirst ':' d).1 ++ ':' :: (nm ++ ':' :: (nd ++ ' ' :: t))) := by
  rw [build_spec, hs]

theorem build_eq_none (orig : List Char) (ny : Option (List Char)) (nm nd d : List Char)
    (hs : splitFirst ' ' orig = (d, none)) :
    build_new_datetime orig ny nm nd = none := by
  rw [build_spec, hs]

theorem build_append_eq (a t : List Char) (ha : ' ' ∉ a) (ny : Option (List Char))
    (nm nd : List Char) :
    build_new_datetime (a ++ ' ' :: t) ny nm nd
      = some (ny.getD (splitFirst ':' a).1 ++ ':' :: (nm ++ ':' :: (nd ++ ' ' :: t))) :=
  build_eq_some _ ny nm nd a t (splitFirst_append_sep ' ' a t ha)

theorem getD_year_not_space (orig : List Char) (ny : Option (List Char)) (d : List Char)
    (t : Option (List Char)) (hs : splitFirst ' ' orig = (d, t))
    (hny : ∀ y, ny = some y → ' ' ∉ y) :
    ' ' ∉ ny.getD (splitFirst ':' d).1 := by
  cases ny with
  | none =>
      intro hmem
      have hd : ' ' ∈ d := mem_of_mem_splitFirst_fst ':' ' ' d hmem
      have hn := not_mem_splitFirst_fst ' ' orig
      rw [hs] at hn
      exact hn hd
  | some y => exact hny y rfl

theorem getD_year_not_colon (ny : Option (List Char)) (d : List Char)
    (hny : ∀ y, ny = some y → ':' ∉ y) :
    ':' ∉ ny.getD (splitFirst ':' d).1 := by
  cases ny with
  | none => exact not_mem_splitFirst_fst ':' d
  | some y => exact hny y rfl

/-- Success of the transformer on any input whose date segment is three
digit groups: the whole segment after the space is carried through and
the year group is replaced only when a new year is supplied. -/
theorem build_wellformed_date (Y M D t : List Char) (ny : Option (List Char))
    (nm nd : List Char) (hY : ∀ c ∈ Y, c.isDigit) (hM : ∀ c ∈ M, c.isDigit)
    (hD : ∀ c ∈ D, c.isDigit) :
    build_new_datetime (Y ++ ':' :: (M ++ ':' :: (D ++ ' ' :: t))) ny nm nd
      = some (ny.getD Y ++ ':' :: (nm ++ ':' :: (nd ++ ' ' :: t))) := by
  have assoc : Y ++ ':' :: (M ++ ':' :: (D ++ ' ' :: t))
      = (Y ++ ':' :: (M ++ ':' :: D)) ++ ' ' :: t := by simp
  rw [assoc,
    build_append_eq _ t (not_mem_datelike ' ' Y M D (not_space_of_digits Y hY)
      (not_space_of_digits M hM) (not_space_of_digits D hD) (by decide)) ny nm nd,
    splitFirst_append_sep ':' Y (M ++ ':' :: D) (not_colon_of_digits Y hY)]

/-! ### Facts about the worker-pool model -/

theorem holdsPermit_waiting : holdsPermit Phase.waiting = false := rfl

theorem holdsPermit_reading : holdsPermit Phase.reading = true := rfl

theorem holdsPermit_transforming : holdsPermit Phase.transforming = true := rfl

theorem holdsPermit_writing : holdsPermit Phase.writing = true := rfl

theorem holdsPermit_done (o : Outcome) : holdsPermit (Phase.done o) = false := rfl

theorem permitCount_append (a b : List Phase) :
    permitCount (a ++ b) = permitCount a + permitCount b := by
  simp [permitCount, List.countP_append]

theorem permitCount_cons (p : Phase) (b : List Phase) :
    permitCount (p :: b) = permitCount b + (if holdsPermit p then 1 else 0) := by
  simp [permitCount, List.countP_cons]

theorem permitCount_replicate_waiting (k : Nat) :
    permitCount (List.replicate k Phase.waiting) = 0 := by
  induction k with
  | zero => rfl
  | succ n ih =>
      rw [List.replicate_succ, permitCount_cons, ih, holdsPermit_waiting]
      simp

theorem wstep_permitCount (cap : Nat) (s s' : List Phase) (h : WStep cap s s')
    (hs : permitCount s ≤ cap) : permitCount s' ≤ cap := by
  cases h with
  | acquire a b hlt =>
      rw [permitCount_append, permitCount_cons, holdsPermit_waiting] at hlt
      rw [permitCount_append, permitCount_cons, holdsPermit_reading]
      simp only [Bool.false_eq_true, if_false, if_true] at hlt ⊢
      omega
  | readOk a b =>
      rw [permitCount_append, permitCount_cons, holdsPermit_reading] at hs
      rw [permitCount_append, permitCount_cons, holdsPermit_transforming]
      exact hs
  | readFail a b =>
      rw [permitCount_append, permitCount_cons, holdsPermit_reading] at hs
      rw [permitCount_append, permitCount_cons, holdsPermit_done]
      simp only [Bool.false_eq_true, if_false, if_true] at hs ⊢
      omega
  | transformOk a b =>
      rw [permitCount_append, permitCount_cons, holdsPermit_transforming] at hs
      rw [permitCount_append, permitCount_cons, holdsPermit_writing]
      exact hs
  | transformFail a b =>
      rw [permitCount_append, permitCount_cons, holdsPermit_transforming] at hs
      rw [permitCount_append, permitCount_cons, holdsPermit_done]
      simp only [Bool.false_eq_true, if_false, if_true] at hs ⊢
      omega
  | writeOk a b dt =>
      rw [permitCount_append, permitCount_cons, holdsPermit_writing] at hs
      rw [permitCount_append, permitCount_cons, holdsPermit_done]
      simp only [Bool.false_eq_true, if_false, if_true] at hs ⊢
      omega
  | writeFail a b =>
      rw [permitCount_append, permitCount_cons, holdsPermit_writing] at hs
      rw [permitCount_append, permitCount_cons, holdsPermit_done]
      simp only [Bool.false_eq_true, if_false, if_true] at hs ⊢
      omega

/-! ### Claim theorems -/

/-- C1 counterexample: on an input that contains a space but whose date
segment has no `:`, `build_new_datetime` does not return `None` — Rust's
`split(':').next()` yields the whole segment, which becomes the year, so
the transformer succeeds on `"garbage more"`. -/
theorem build_missing_colon_still_some :
    build_new_datetime "garbage more".data none "01".data "01".data
      = some "garbage:01:01 more".data := by decide

/-- C1 (amended): `build_new_datetime` returns `None` exactly when the
input contains no space; a date segment without `:` is not a failure —
the whole segment is used as the original year — and, the function being
total, no input panics. -/
theorem build_none_iff_no_space (orig : List Char) (ny : Option (List Char))
    (nm nd : List Char) :
    build_new_datetime orig ny nm nd = none ↔ ' ' ∉ orig := by
  rw [build_spec, ← splitFirst_snd_none_iff ' ' orig]
  cases hs : splitFirst ' ' orig with
  | mk d o => cases o <;> simp

/-- Witness for C1's amended theorem at the concrete space-free input
`"abc"`. -/
theorem build_none_iff_no_space_witness :
    build_new_datetime "abc".data none "01".data "02".data = none :=
  (build_none_iff_no_space "abc".data none "01".data "02".data).mpr (by decide)

/-- C2 (evaluation at the failing input): with two spawned tasks, the
first of which panicked and the second of which completed, the run's
observable report is identical to that of a batch without the panicked
task — the remaining worker is still awaited and reported, but the
`JoinError` is silently dropped by `let _ = h.await;` instead of being
captured as a distinguishable Outcome-like signal. -/
theorem batch_report_drops_panicked_worker :
    batch_report [Except.error "task panicked".data, Except.ok "ok line".data]
        = batch_report [Except.ok "ok line".data]
    ∧ batch_report [Except.error "task panicked".data, Except.ok "ok line".data]
        = ["ok line".data] :=
  ⟨rfl, rfl⟩

/-- C3: when the external tool ran to completion, `get_original_datetime`
returns `none` exactly on a non-zero exit status or on output that is
empty after trimming (decoding is `from_utf8_lossy`, hence total and
never a failure source), and otherwise returns the decoded, trimmed
output. -/
theorem get_original_datetime_none_iff (s : Bool) (out : List Char) :
    (get_original_datetime (some ⟨s, out⟩) = none ↔ s = false ∨ rustTrim out = [])
    ∧ (s = true → rustTrim out ≠ [] →
        get_original_datetime (some ⟨s, out⟩) = some (rustTrim out)) := by
  cases s <;> by_cases h : rustTrim out = [] <;> simp [get_original_datetime, h]

/-- Witness for C3 at a successful invocation with padded output. -/
theorem get_original_datetime_none_iff_witness :
    get_original_datetime (some ⟨true, " 2021:05:17 14:03:22 ".data⟩)
      = some "2021:05:17 14:03:22".data :=
  (get_original_datetime_none_iff true " 2021:05:17 14:03:22 ".data).2 rfl (by decide)

/-- C4: the three end-to-end transformer examples from the spec hold on
the code. -/
theorem build_new_datetime_examples :
    build_new_datetime "2021:05:17 14:03:22+02:00".data (some "1999".data)
        "12".data "25".data = some "1999:12:25 14:03:22+02:00".data
    ∧ build_new_datetime "2021:05:17 14:03:22".data none "12".data "25".data
        = some "2021:12:25 14:03:22".data
    ∧ build_new_datetime "garbage".data none "01".data "01".data = none :=
  ⟨by decide, by decide, by decide⟩

/-- C5: on a well-formed original `YYYY:MM:DD HH:MM:SS` the transformer
replaces the date fields and preserves `HH:MM:SS` exactly, and on a
well-formed original `YYYY:MM:DD HH:MM:SS±HH:MM` it additionally
preserves the timezone offset exactly, including its sign. -/
theorem build_preserves_time_and_offset (Y M D hh mi ss : List Char)
    (ny : Option (List Char)) (nm nd : List Char)
    (hY : Y.length = 4 ∧ ∀ c ∈ Y, c.isDigit)
    (hM : M.length = 2 ∧ ∀ c ∈ M, c.isDigit)
    (hD : D.length = 2 ∧ ∀ c ∈ D, c.isDigit)
    (hhh : hh.length = 2 ∧ ∀ c ∈ hh, c.isDigit)
    (hmi : mi.length = 2 ∧ ∀ c ∈ mi, c.isDigit)
    (hss : ss.length = 2 ∧ ∀ c ∈ ss, c.isDigit) :
    (build_new_datetime
        (Y ++ ':' :: (M ++ ':' :: (D ++ ' ' :: (hh ++ ':' :: (mi ++ ':' :: ss)))))
        ny nm nd
      = some (ny.getD Y ++ ':' :: (nm ++ ':' :: (nd ++ ' ' :: (hh ++ ':' :: (mi ++ ':' :: ss))))))
    ∧ ∀ (sg : Char) (off : List Char), isSign sg = true →
        build_new_datetime
            (Y ++ ':' :: (M ++ ':' :: (D ++ ' ' :: (hh ++ ':' :: (mi ++ ':' :: (ss ++ sg :: off))))))
            ny nm nd
          = some (ny.getD Y ++ ':' :: (nm ++ ':' :: (nd ++ ' ' ::
              (hh ++ ':' :: (mi ++ ':' :: (ss ++ sg :: off)))))) :=
  ⟨build_wellformed_date Y M D _ ny nm nd hY.2 hM.2 hD.2,
    fun _ _ _ => build_wellformed_date Y M D _ ny nm nd hY.2 hM.2 hD.2⟩

/-- Witness for C5 on a concrete timestamp with a negative offset and no
replacement year. -/
theorem build_preserves_time_and_offset_witness :
    build_new_datetime "2021:05:17 08:30:00-05:00".data none "01".data "02".data
      = some "2021:01:02 08:30:00-05:00".data :=
  (build_preserves_time_and_offset "2021".data "05".data "17".data "08".data "30".data
      "00".data none "01".data "02".data (by decide) (by decide) (by decide) (by decide)
      (by decide) (by decide)).2 '-' "05:00".data (by decide)

/-- C6: on every successful run, the year field of the output (its
segment before the first `:`) is the original date segment's first
`:`-piece when no new year is supplied, and is exactly the supplied year
otherwise. -/
theorem build_year_selection (orig nm nd out : List Char) :
    (build_new_datetime orig none nm nd = some out →
        (splitFirst ':' out).1 = (splitFirst ':' (splitFirst ' ' orig).1).1)
    ∧ ∀ y : List Char, (∀ c ∈ y, c.isDigit) →
        build_new_datetime orig (some y) nm nd = some out →
        (splitFirst ':' out).1 = y := by
  cases hs : splitFirst ' ' orig with
  | mk d o =>
      cases o with
      | none =>
          refine ⟨fun h => ?_, fun y _ h => ?_⟩
          · rw [build_eq_none orig none nm nd d hs] at h; simp at h
          · rw [build_eq_none orig (some y) nm nd d hs] at h; simp at h
      | some t =>
          refine ⟨fun h => ?_, fun y hy h => ?_⟩
          · rw [build_eq_some orig none nm nd d t hs] at h
            simp only [Option.some.injEq, Option.getD_none] at h
            rw [← h, splitFirst_append_sep ':' _ _ (not_mem_splitFirst_fst ':' d)]
          · rw [build_eq_some orig (some y) nm nd d t hs] at h
            simp only [Option.some.injEq, Option.getD_some] at h
            rw [← h, splitFirst_append_sep ':' _ _ (not_colon_of_digits y hy)]

/-- Witness for C6 with a supplied year at a concrete input. -/
theorem build_year_selection_witness :
    (splitFirst ':' "1999:12:25 14:03:23".data).1 = "1999".data :=
  (build_year_selection "2021:05:17 14:03:23".data "12".data "25".data
      "1999:12:25 14:03:23".data).2 "1999".data (by decide) (by decide)

/-- C7: the transformer is idempotent — reapplying it with the same
two-digit month and day and the same optional four-digit year to its own
output reproduces that output. -/
theorem build_idempotent (orig : List Char) (ny : Option (List Char)) (nm nd out : List Char)
    (hnm : nm.length = 2 ∧ ∀ c ∈ nm, c.isDigit)
    (hnd : nd.length = 2 ∧ ∀ c ∈ nd, c.isDigit)
    (hny : ∀ y, ny = some y → y.length = 4 ∧ ∀ c ∈ y, c.isDigit)
    (h : build_new_datetime orig ny nm nd = some out) :
    build_new_datetime out ny nm nd = some out := by
  cases hs : splitFirst ' ' orig with
  | mk d o =>
      cases o with
      | none => rw [build_eq_none orig ny nm nd d hs] at h; simp at h
      | some t =>
          rw [build_eq_some orig ny nm nd d t hs] at h
          simp only [Option.some.injEq] at h
          have hyr_space : ' ' ∉ ny.getD (splitFirst ':' d).1 :=
            getD_year_not_space orig ny d (some t) hs
              (fun y hy => not_space_of_digits y (hny y hy).2)
          have hyr_colon : ':' ∉ ny.getD (splitFirst ':' d).1 :=
            getD_year_not_colon ny d (fun y hy => not_colon_of_digits y (hny y hy).2)
          have hgetD : ny.getD (ny.getD (splitFirst ':' d).1) = ny.getD (splitFirst ':' d).1 := by
            cases ny <;> rfl
          have assoc : ny.getD (splitFirst ':' d).1 ++ ':' :: (nm ++ ':' :: (nd ++ ' ' :: t))
              = (ny.getD (splitFirst ':' d).1 ++ ':' :: (nm ++ ':' :: nd)) ++ ' ' :: t := by
            simp
          rw [← h, assoc,
            build_append_eq _ t
              (not_mem_datelike ' ' _ nm nd hyr_space (not_space_of_digits nm hnm.2)
                (not_space_of_digits nd hnd.2) (by decide)) ny nm nd,
            splitFirst_append_sep ':' _ _ hyr_colon]
          rw [hgetD]
          simp

/-- Witness for C7: reapplying the transformer to one of its outputs. -/
theorem build_idempotent_witness :
    build_new_datetime "2021:12:25 14:03:22+02:00".data none "12".data "25".data
      = some "2021:12:25 14:03:22+02:00".data :=
  build_idempotent "2021:05:17 14:03:22+02:00".data none "12".data "25".data
    "2021:12:25 14:03:22+02:00".data (by decide) (by decide)
    (fun _ hy => Option.noConfusion hy) (by decide)

/-- C8: in the worker-pool model, every state reachable from a batch of
`k` spawned workers keeps the number of permit holders at or below the
semaphore capacity, and every terminal worker — whichever of the four
outcomes it reports — holds no permit, its slot having been released on
that exit path. -/
theorem limiter_invariant (cap k : Nat) (ws : List Phase)
    (h : Relation.ReflTransGen (WStep cap) (List.replicate k Phase.waiting) ws) :
    permitCount ws ≤ cap ∧ ∀ o : Outcome, holdsPermit (Phase.done o) = false := by
  refine ⟨?_, fun o => rfl⟩
  induction h with
  | refl => rw [permitCount_replicate_waiting]; exact Nat.zero_le cap
  | tail _ hbc ih => exact wstep_permitCount cap _ _ hbc ih

/-- Witness for C8: a two-worker batch under capacity 1, after the first
worker acquires the only slot. -/
theorem limiter_invariant_witness :
    permitCount [Phase.reading, Phase.waiting] ≤ 1
    ∧ ∀ o : Outcome, holdsPermit (Phase.done o) = false :=
  limiter_invariant 1 2 [Phase.reading, Phase.waiting]
    (Relation.ReflTransGen.single (WStep.acquire [] [Phase.waiting] (by decide)))

/-- C9: whenever the transformer succeeds (its year, month and day
arguments being space-free, as the CLI layer guarantees), everything
after the first space of the output is byte-for-byte everything after
the first space of the input, whether or not that segment is a
well-formed time. -/
theorem build_preserves_tail_after_space (orig : List Char) (ny : Option (List Char))
    (nm nd out : List Char) (hsp : ' ' ∈ orig)
    (hnm : ' ' ∉ nm) (hnd : ' ' ∉ nd) (hny : ∀ y, ny = some y → ' ' ∉ y)
    (h : build_new_datetime orig ny nm nd = some out) :
    (splitFirst ' ' out).2 = (splitFirst ' ' orig).2 := by
  cases hs : splitFirst ' ' orig with
  | mk d o =>
      cases o with
      | none => rw [build_eq_none orig ny nm nd d hs] at h; simp at h
      | some t =>
          rw [build_eq_some orig ny nm nd d t hs] at h
          simp only [Option.some.injEq] at h
          have hyr_space : ' ' ∉ ny.getD (splitFirst ':' d).1 :=
            getD_year_not_space orig ny d (some t) hs hny
          have assoc : ny.getD (splitFirst ':' d).1 ++ ':' :: (nm ++ ':' :: (nd ++ ' ' :: t))
              = (ny.getD (splitFirst ':' d).1 ++ ':' :: (nm ++ ':' :: nd)) ++ ' ' :: t := by
            simp
          rw [← h, assoc,
            splitFirst_append_sep ' ' _ _
              (not_mem_datelike ' ' _ nm nd hyr_space hnm hnd (by decide))]

/-- Witness for C9 on a concrete malformed-time input: the tail after the
first space, spaces included, is carried through. -/
theorem build_preserves_tail_after_space_witness :
    (splitFirst ' ' "1999:07:04 hello world-x".data).2
      = (splitFirst ' ' "2020:01:02 hello world-x".data).2 :=
  build_preserves_tail_after_space "2020:01:02 hello world-x".data (some "1999".data)
    "07".data "04".data "1999:07:04 hello world-x".data (by decide) (by decide) (by decide)
    (fun _ hy => by rw [← Option.some.inj hy]; decide) (by decide)

/-- C10: the transformer is total — on every argument combination it
returns either `some` or `none` — and the timezone scan is slice-safe:
the cut point never exceeds the segment's length and the two slices
always reconcatenate to the whole segment. -/
theorem build_total_and_split_safe :
    (∀ (orig : List Char) (ny : Option (List Char)) (nm nd : List Char),
        build_new_datetime orig ny nm nd = none
        ∨ ∃ out, build_new_datetime orig ny nm nd = some out)
    ∧ ∀ t : List Char,
        (splitTz t).1 ++ (splitTz t).2 = t ∧ (splitTz t).1.length ≤ t.length := by
  constructor
  · intro orig ny nm nd
    cases h : build_new_datetime orig ny nm nd with
    | none => exact Or.inl rfl
    | some out => exact Or.inr ⟨out, rfl⟩
  · exact fun t => ⟨splitTz_recombine t, splitTz_fst_length t⟩

end ExifChdate
